import Mathlib

/-! Formal model of the Solana program deployment flow implemented in
`src/components/deploy/index.tsx` (the `DeployView` component): the binary
chunking loop, the loader instruction encodings, and the `deployProgram`
control flow.  React state updates (`setDeploymentStatus`) are modelled as
explicit state passing; the two terminal updates read `deploymentStatus`
from the handler's closure, which is the state value from the render at
which the handler was created, so they are modelled as reading the initial
status `s0`.  Network calls are modelled by a deterministic `Ledger` oracle
and the run records an instrumentation trace of connection, rent-query,
submission and confirmation events. -/

/-- Transport chunk limit used by the write loop (`const chunkSize = 900`). -/
def chunkSize : Nat := 900

/-- `BPF_LOADER_PROGRAM_ID` from `@solana/web3.js`, as base58 text. -/
def BPF_LOADER_PROGRAM_ID : String := "BPFLoader2111111111111111111111111111111111"

/-- Rent sysvar address named literally in the finalize instruction. -/
def RENT_SYSVAR : String := "SysvarRent111111111111111111111111111111111"

/-- Little-endian 4-byte encoding of a 32-bit value (`Buffer.writeUInt32LE`). -/
def uint32LE (n : Nat) : List Nat :=
  [n % 256, n / 256 % 256, n / 65536 % 256, n / 16777216 % 256]

/-- Read the first four bytes of a payload back as a little-endian value. -/
def leDecode4 : List Nat → Nat
  | b0 :: b1 :: b2 :: b3 :: _ => b0 + 256 * b1 + 65536 * b2 + 16777216 * b3
  | _ => 0

/-- Boolean check that `p` occurs at the start of `l`. -/
def seqStartsWith : List Char → List Char → Bool
  | [], _ => true
  | _ :: _, [] => false
  | p :: ps, c :: cs => p == c && seqStartsWith ps cs

/-- Boolean check that `p` occurs contiguously somewhere inside `l`. -/
def seqContains (p : List Char) : List Char → Bool
  | [] => seqStartsWith p []
  | c :: cs => seqStartsWith p (c :: cs) || seqContains p cs

/-- Whether the decimal rendering of `n` occurs inside the string `s`. -/
def mentionsNat (s : String) (n : Nat) : Bool :=
  seqContains (toString n).toList s.toList

/-- One account reference of a `TransactionInstruction` (pubkeys as base58 text). -/
structure AccountMeta where
  pubkey : String
  isSigner : Bool
  isWritable : Bool
deriving Repr, DecidableEq

/-- A `TransactionInstruction` as built in the source: account keys, owning
program id, and raw data bytes. -/
structure TransactionInstruction where
  keys : List AccountMeta
  programId : String
  data : List Nat
deriving Repr, DecidableEq

/-- An instruction added to a transaction: either the ledger-native
`SystemProgram.createAccount` (whose byte layout is owned by web3.js and kept
abstract) or a raw loader instruction built by the component. -/
inductive Instr where
  | createAccount (fromPubkey newAccountPubkey : String) (lamports space : Nat)
      (owner : String)
  | loader (ti : TransactionInstruction)
deriving Repr, DecidableEq

/-- A transaction: its instructions plus the list of public keys for which a
local `partialSign` was applied before submission. -/
structure Transaction where
  instructions : List Instr
  localSigners : List String
deriving Repr, DecidableEq

/-- Payload of a chunk-write instruction: `writeUInt32LE(0, 0)`,
`writeUInt32LE(offset, 4)`, then the chunk bytes copied at index 8. -/
def writeInstructionData (offset : Nat) (chunk : List Nat) : List Nat :=
  uint32LE 0 ++ uint32LE offset ++ chunk

/-- The chunk-write `TransactionInstruction`: a single account key (the
program identity, signer and writable), owned by the BPF loader. -/
def writeInstruction (identityPk : String) (offset : Nat) (chunk : List Nat) :
    TransactionInstruction :=
  { keys := [{ pubkey := identityPk, isSigner := true, isWritable := true }],
    programId := BPF_LOADER_PROGRAM_ID,
    data := writeInstructionData offset chunk }

/-- The finalize `TransactionInstruction`: program identity (signer,
writable) then the rent sysvar (neither), with payload `uint32LE 1`. -/
def finalizeInstruction (identityPk : String) : TransactionInstruction :=
  { keys := [{ pubkey := identityPk, isSigner := true, isWritable := true },
             { pubkey := RENT_SYSVAR, isSigner := false, isWritable := false }],
    programId := BPF_LOADER_PROGRAM_ID,
    data := uint32LE 1 }

/-- The account-creation transaction after `partialSign(programKeypair)`:
note the program identity is its only local co-signer. -/
def createAccountTransaction (payer identityPk : String) (lamports space : Nat) :
    Transaction :=
  { instructions := [Instr.createAccount payer identityPk lamports space
      BPF_LOADER_PROGRAM_ID],
    localSigners := [identityPk] }

/-- A chunk-write transaction as submitted: no `partialSign` is applied to it
in the source, so `localSigners` is empty. -/
def writeTransaction (identityPk : String) (offset : Nat) (chunk : List Nat) :
    Transaction :=
  { instructions := [Instr.loader (writeInstruction identityPk offset chunk)],
    localSigners := [] }

/-- The finalize transaction as submitted: no `partialSign` is applied to it
in the source, so `localSigners` is empty. -/
def finalizeTransaction (identityPk : String) : Transaction :=
  { instructions := [Instr.loader (finalizeInstruction identityPk)],
    localSigners := [] }

/-- Modelled from the spec (round-trip property): decode a write payload by
checking the little-endian discriminant is `0` and reading back the
little-endian offset and the remaining bytes. -/
def decodeWritePayload (payload : List Nat) : Option (Nat × List Nat) :=
  if 8 ≤ payload.length ∧ leDecode4 (payload.take 4) = 0 then
    some (leDecode4 ((payload.drop 4).take 4), payload.drop 8)
  else none

/-- The chunk extracted at `offset`: `programData.slice(offset, offset + 900)`. -/
def chunkAt (blob : List Nat) (offset : Nat) : List Nat :=
  (blob.drop offset).take chunkSize

/-- The offset/bytes pairs produced by the write loop from `offset` onward:
`while (offset < programData.length) { ... offset += chunkSize }`. -/
def chunksFrom (blob : List Nat) (offset : Nat) : List (Nat × List Nat) :=
  if _h : offset < blob.length then
    (offset, chunkAt blob offset) :: chunksFrom blob (offset + chunkSize)
  else []
termination_by blob.length - offset
decreasing_by simp [chunkSize]; omega

/-- All chunks of the blob, starting from offset `0`. -/
def chunks (blob : List Nat) : List (Nat × List Nat) :=
  chunksFrom blob 0

/-- The `DeploymentStatus` React state: status tag, message, log lines, and
the optional program id (present only in the success update). -/
structure DeploymentStatus where
  status : String
  message : String
  logs : List String
  programId : Option String := none
deriving Repr, DecidableEq

/-- Instrumentation events recorded by the model at each network-bound call
of `deployProgram`, in execution order. -/
inductive RunEvent where
  | connCreated
  | rentQueried (space : Nat)
  | submitted (tx : Transaction)
  | confirmed (tx : Transaction) (txHash : String)
deriving Repr, DecidableEq

/-- Deterministic oracle for the network: connection creation (returning the
fee-payer public key from the Fireblocks vault), the rent-exemption query,
and `sendAndConfirmTransaction` outcomes indexed by submission count. -/
structure Ledger where
  conn : Except String String
  rent : Except String Nat
  sendConfirm : Nat → Except String String

/-- In-flight run state: the current React status (as maintained by the
functional `addLog` updates), the instrumentation trace, and the number of
transactions submitted so far. -/
structure RunSt where
  s : DeploymentStatus
  trace : List RunEvent
  nsend : Nat
deriving Repr

/-- `addLog`: functional state update appending one log line
(`setDeploymentStatus((prev) => ({ ...prev, logs: [...prev.logs, log] }))`). -/
def addLog (log : String) (st : RunSt) : RunSt :=
  { st with s := { st.s with logs := st.s.logs ++ [log] } }

/-- Record one instrumentation event. -/
def emit (e : RunEvent) (st : RunSt) : RunSt :=
  { st with trace := st.trace ++ [e] }

/-- `sendAndConfirmTransaction(connection, tx, [])`: submit, then either
fail (propagating the thrown error) or succeed with the ledger's hash. -/
def sendAndConfirmTransaction (ledger : Ledger) (tx : Transaction) (st : RunSt) :
    Except (String × RunSt) (String × RunSt) :=
  let st1 : RunSt :=
    { st with trace := st.trace ++ [RunEvent.submitted tx], nsend := st.nsend + 1 }
  match ledger.sendConfirm st.nsend with
  | Except.error e => Except.error (e, st1)
  | Except.ok h =>
      Except.ok (h, { st1 with trace := st1.trace ++ [RunEvent.confirmed tx h] })

/-- The chunk-write loop of `deployProgram`: for each offset below the blob
length, build the write transaction, submit and confirm it, log the
confirmation, and advance the offset by `chunkSize`. -/
def writeChunksLoop (ledger : Ledger) (identityPk : String) (blob : List Nat)
    (offset : Nat) (st : RunSt) : Except (String × RunSt) RunSt :=
  if _h : offset < blob.length then
    match sendAndConfirmTransaction ledger
        (writeTransaction identityPk offset (chunkAt blob offset)) st with
    | Except.error es => Except.error es
    | Except.ok (h, st1) =>
        writeChunksLoop ledger identityPk blob (offset + chunkSize)
          (addLog ("Wrote chunk at offset " ++ toString offset ++
            ": https://explorer.solana.com/tx/" ++ h ++ "?cluster=devnet") st1)
  else Except.ok st
termination_by blob.length - offset
decreasing_by simp [chunkSize]; omega

/-- Inputs of one `deployProgram` invocation: the three environment-derived
configuration strings (absent or empty count as missing), the display path,
the uploaded program bytes (absent until a file is read), and how the
wallet-derived `Keypair` construction behaves (whether its `try` throws, and
which fresh public key `Keypair.generate()` would produce in the `catch`). -/
structure DeployParams where
  apiKey : Option String
  apiSecretPath : Option String
  vaultAccountId : Option String
  programPath : String
  programData : Option (List Nat)
  keypairCtorFails : Bool
  freshKeypairPk : String

/-- JavaScript falsiness of an optional string (`undefined` and `""`). -/
def falsyStr : Option String → Bool
  | none => true
  | some s => s == ""

/-- The input validation at the top of `deployProgram`:
`!apiKey || !apiSecretPath || !vaultAccountId || !programData`.  Note an
empty uploaded `Buffer` is truthy, so only an absent one counts as missing. -/
def missingRequiredFields (p : DeployParams) : Bool :=
  falsyStr p.apiKey || falsyStr p.apiSecretPath || falsyStr p.vaultAccountId ||
    p.programData.isNone

/-- The program identity actually used: the fee payer's public key, unless
the wallet-derived `Keypair` construction threw, in which case the freshly
generated keypair from the `catch` branch. -/
def identityOf (p : DeployParams) (payer : String) : String :=
  if p.keypairCtorFails then p.freshKeypairPk else payer

/-- The body of the `try` block of `deployProgram`, from configuring the
connection up to the finalize confirmation log.  Returns the final run state
and the program identity on success, or the thrown error message together
with the run state at the throw. -/
def deployBody (p : DeployParams) (ledger : Ledger) (blob : List Nat) :
    Except (String × RunSt) (RunSt × String) :=
  let st0 : RunSt :=
    { s := { status := "deploying",
             message := "Starting Solana program deployment...",
             logs := ["Starting Solana program deployment..."] },
      trace := [], nsend := 0 }
  let st1 := addLog "Creating connection to Solana devnet..."
    (addLog "Configuring Fireblocks connection..." st0)
  match ledger.conn with
  | Except.error e => Except.error (e, st1)
  | Except.ok payer =>
    let st2 := addLog ("Deployer account: " ++ payer) (emit RunEvent.connCreated st1)
    let identityPk := identityOf p payer
    let st3 :=
      if p.keypairCtorFails then
        addLog ("Generated new program keypair: " ++ p.freshKeypairPk)
          (addLog "Unable to use connected wallet as program keypair, generating new one..." st2)
      else
        addLog ("Using connected wallet as program keypair: " ++ payer) st2
    let st4 := addLog ("Program size: " ++ toString blob.length ++ " bytes")
      (addLog ("Checking program file: " ++ p.programPath ++ "...") st3)
    match ledger.rent with
    | Except.error e => Except.error (e, st4)
    | Except.ok rentAmt =>
      let st5 := addLog ("Minimum balance for rent exemption: " ++ toString rentAmt ++ " lamports")
        (emit (RunEvent.rentQueried blob.length) st4)
      let st6 := addLog "Creating program account..." (addLog "Deploying program..." st5)
      match sendAndConfirmTransaction ledger
          (createAccountTransaction payer identityPk rentAmt blob.length) st6 with
      | Except.error es => Except.error es
      | Except.ok (h1, st7) =>
        let st8 := addLog "Writing program data in chunks..."
          (addLog ("Program account created: https://explorer.solana.com/tx/" ++ h1 ++ "?cluster=devnet") st7)
        match writeChunksLoop ledger identityPk blob 0 st8 with
        | Except.error es => Except.error es
        | Except.ok st9 =>
          let st10 := addLog "Finalizing program..." st9
          match sendAndConfirmTransaction ledger (finalizeTransaction identityPk) st10 with
          | Except.error es => Except.error es
          | Except.ok (h2, st11) =>
            Except.ok (addLog ("Program finalized: https://explorer.solana.com/tx/" ++ h2 ++ "?cluster=devnet") st11,
              identityPk)

/-- The terminal success update: a fresh status object whose `logs` are built
from `deploymentStatus.logs` as captured by the handler's closure, i.e. from
the status value `s0` of the render that created the handler. -/
def successStatus (s0 : DeploymentStatus) (pk : String) : DeploymentStatus :=
  { status := "success",
    message := "Program deployment completed successfully!",
    logs := s0.logs ++ ["Program deployment completed successfully!"],
    programId := some pk }

/-- The terminal error update of the `catch` block, with the same stale
closure read of `deploymentStatus.logs`. -/
def errorStatus (s0 : DeploymentStatus) (e : String) : DeploymentStatus :=
  { status := "error",
    message := "Error deploying program: " ++ e,
    logs := s0.logs ++ ["Error: " ++ e],
    programId := none }

/-- `deployProgram`: validate the required fields (returning with only a
toast, leaving the status untouched, when any is missing), then run the
`try` body and apply the terminal success or error status update.  Returns
the final `DeploymentStatus` and the instrumentation trace. -/
def deployProgram (p : DeployParams) (ledger : Ledger) (s0 : DeploymentStatus) :
    DeploymentStatus × List RunEvent :=
  if missingRequiredFields p then (s0, [])
  else
    match p.programData with
    | none => (s0, [])
    | some blob =>
      match deployBody p ledger blob with
      | Except.ok (st, identityPk) => (successStatus s0 identityPk, st.trace)
      | Except.error (e, st) => (errorStatus s0 e, st.trace)

/-- The canonical strictly sequential interleaving of write events: for each
chunk in order, its submission immediately followed by its confirmation,
with hashes taken from the oracle at successive submission indices. -/
def writeEvents (pk : String) (hashFn : Nat → String) (n0 : Nat) :
    List (Nat × List Nat) → List RunEvent
  | [] => []
  | c :: rest =>
      RunEvent.submitted (writeTransaction pk c.1 c.2) ::
      RunEvent.confirmed (writeTransaction pk c.1 c.2) (hashFn n0) ::
      writeEvents pk hashFn (n0 + 1) rest

/-- The full instrumentation trace of a run in which every network call
succeeds: connection, rent query, account creation, the sequential chunk
writes, and finalize. -/
def happyTrace (payer pk : String) (rentAmt : Nat) (blob : List Nat)
    (hashFn : Nat → String) : List RunEvent :=
  [RunEvent.connCreated, RunEvent.rentQueried blob.length,
   RunEvent.submitted (createAccountTransaction payer pk rentAmt blob.length),
   RunEvent.confirmed (createAccountTransaction payer pk rentAmt blob.length) (hashFn 0)] ++
  writeEvents pk hashFn 1 (chunks blob) ++
  [RunEvent.submitted (finalizeTransaction pk),
   RunEvent.confirmed (finalizeTransaction pk) (hashFn (1 + (chunks blob).length))]

/-- The instrumentation trace of a run whose `sendAndConfirmTransaction` for
chunk index `i` (submission index `1 + i`) fails: the prefix up to account
creation, the successful writes before `i`, and the failing submission. -/
def writeFailTrace (payer pk : String) (rentAmt : Nat) (blob : List Nat)
    (hashFn : Nat → String) (i : Nat) : List RunEvent :=
  [RunEvent.connCreated, RunEvent.rentQueried blob.length,
   RunEvent.submitted (createAccountTransaction payer pk rentAmt blob.length),
   RunEvent.confirmed (createAccountTransaction payer pk rentAmt blob.length) (hashFn 0)] ++
  writeEvents pk hashFn 1 ((chunks blob).take i) ++
  [RunEvent.submitted (writeTransaction pk (chunkSize * i) (chunkAt blob (chunkSize * i)))]

/-- Example parameters: complete configuration, a given uploaded blob, and a
wallet-derived keypair construction that does not throw. -/
def okParams (blob : List Nat) : DeployParams :=
  { apiKey := some "api-key", apiSecretPath := some "secret.pem",
    vaultAccountId := some "0", programPath := "program.so",
    programData := some blob, keypairCtorFails := false,
    freshKeypairPk := "FreshKey" }

/-- Example oracle on which every network call succeeds with hash `"H"`. -/
def okLedger : Ledger :=
  { conn := Except.ok "Payer", rent := Except.ok 12345,
    sendConfirm := fun _ => Except.ok "H" }

/-- Example oracle that succeeds until submission index `k`, at which the
send-and-confirm call fails with message `e`. -/
def failAtLedger (k : Nat) (e : String) : Ledger :=
  { conn := Except.ok "Payer", rent := Except.ok 12345,
    sendConfirm := fun n => if n < k then Except.ok "H" else Except.error e }

/-- The initial idle component state. -/
def idleStatus : DeploymentStatus :=
  { status := "idle", message := "", logs := [] }

/-- The log lines appended by the write loop, one per chunk in order. -/
def writeLogs (hashFn : Nat → String) (n0 : Nat) : List (Nat × List Nat) → List String
  | [] => []
  | c :: rest =>
      ("Wrote chunk at offset " ++ toString c.1 ++ ": https://explorer.solana.com/tx/" ++
        hashFn n0 ++ "?cluster=devnet") :: writeLogs hashFn (n0 + 1) rest

/-- All log lines accumulated by the functional `addLog` updates over a run
in which every network call succeeds. -/
def happyLogs (p : DeployParams) (payer : String) (rentAmt : Nat) (blob : List Nat)
    (hashFn : Nat → String) : List String :=
  ["Starting Solana program deployment...",
   "Configuring Fireblocks connection...",
   "Creating connection to Solana devnet...",
   "Deployer account: " ++ payer] ++
  (if p.keypairCtorFails then
    ["Unable to use connected wallet as program keypair, generating new one...",
     "Generated new program keypair: " ++ p.freshKeypairPk]
   else ["Using connected wallet as program keypair: " ++ payer]) ++
  ["Checking program file: " ++ p.programPath ++ "...",
   "Program size: " ++ toString blob.length ++ " bytes",
   "Minimum balance for rent exemption: " ++ toString rentAmt ++ " lamports",
   "Deploying program...",
   "Creating program account...",
   "Program account created: https://explorer.solana.com/tx/" ++ hashFn 0 ++ "?cluster=devnet",
   "Writing program data in chunks..."] ++
  writeLogs hashFn 1 (chunks blob) ++
  ["Finalizing program...",
   "Program finalized: https://explorer.solana.com/tx/" ++
     hashFn (1 + (chunks blob).length) ++ "?cluster=devnet"]

/-- All log lines accumulated by the functional `addLog` updates over a run
whose send-and-confirm call for chunk index `i` fails. -/
def writeFailLogs (p : DeployParams) (payer : String) (rentAmt : Nat)
    (blob : List Nat) (hashFn : Nat → String) (i : Nat) : List String :=
  ["Starting Solana program deployment...",
   "Configuring Fireblocks connection...",
   "Creating connection to Solana devnet...",
   "Deployer account: " ++ payer] ++
  (if p.keypairCtorFails then
    ["Unable to use connected wallet as program keypair, generating new one...",
     "Generated new program keypair: " ++ p.freshKeypairPk]
   else ["Using connected wallet as program keypair: " ++ payer]) ++
  ["Checking program file: " ++ p.programPath ++ "...",
   "Program size: " ++ toString blob.length ++ " bytes",
   "Minimum balance for rent exemption: " ++ toString rentAmt ++ " lamports",
   "Deploying program...",
   "Creating program account...",
   "Program account created: https://explorer.solana.com/tx/" ++ hashFn 0 ++ "?cluster=devnet",
   "Writing program data in chunks..."] ++
  writeLogs hashFn 1 ((chunks blob).take i)

/-- Modelled from the spec: a terminal status "reports" an offset if the
offset's decimal rendering occurs in its message or in one of its logs (the
`DeploymentStatus` record has no dedicated field that could hold it). -/
def spec_reportsLastConfirmedOffset (d : DeploymentStatus) (n : Nat) : Bool :=
  mentionsNat d.message n || d.logs.any (fun l => mentionsNat l n)

theorem chunksFrom_of_le (blob : List Nat) (offset : Nat) (h : blob.length ≤ offset) :
    chunksFrom blob offset = [] := by
  rw [chunksFrom, dif_neg (Nat.not_lt.2 h)]

theorem chunksFrom_of_lt (blob : List Nat) (offset : Nat) (h : offset < blob.length) :
    chunksFrom blob offset =
      (offset, chunkAt blob offset) :: chunksFrom blob (offset + chunkSize) := by
  rw [chunksFrom, dif_pos h]

/-- In-order concatenation of the chunk bytes from `offset` onward recovers
the dropped remainder of the blob. -/
theorem chunksFrom_flatten (blob : List Nat) (offset : Nat) :
    ((chunksFrom blob offset).map Prod.snd).flatten = blob.drop offset := by
  by_cases h : offset < blob.length
  · rw [chunksFrom_of_lt blob offset h]
    simp only [List.map_cons, List.flatten_cons]
    rw [chunksFrom_flatten blob (offset + chunkSize)]
    rw [chunkAt, ← List.drop_drop]
    exact List.take_append_drop _ _
  · rw [chunksFrom_of_le blob offset (Nat.le_of_not_lt h)]
    simp [List.drop_eq_nil_of_le (Nat.le_of_not_lt h)]
termination_by blob.length - offset
decreasing_by simp [chunkSize]; omega

/-- The chunk lengths from `offset` onward sum to the remaining blob length. -/
theorem chunksFrom_sum_lengths (blob : List Nat) (offset : Nat) :
    ((chunksFrom blob offset).map (fun c => c.2.length)).sum = blob.length - offset := by
  by_cases h : offset < blob.length
  · rw [chunksFrom_of_lt blob offset h]
    simp only [List.map_cons, List.sum_cons]
    rw [chunksFrom_sum_lengths blob (offset + chunkSize)]
    simp only [chunkAt, List.length_take, List.length_drop]
    omega
  · rw [chunksFrom_of_le blob offset (Nat.le_of_not_lt h)]
    simp
    omega
termination_by blob.length - offset
decreasing_by simp [chunkSize]; omega

/-- No chunk exceeds the transport limit. -/
theorem chunksFrom_length_le (blob : List Nat) (offset : Nat) :
    ∀ c ∈ chunksFrom blob offset, c.2.length ≤ chunkSize := by
  intro c hc
  by_cases h : offset < blob.length
  · rw [chunksFrom_of_lt blob offset h] at hc
    rcases List.mem_cons.1 hc with rfl | hc
    · simp [chunkAt, List.length_take]
    · exact chunksFrom_length_le blob (offset + chunkSize) c hc
  · rw [chunksFrom_of_le blob offset (Nat.le_of_not_lt h)] at hc
    cases hc
termination_by blob.length - offset
decreasing_by simp [chunkSize]; omega

/-- Every chunk from `offset` onward is nonempty. -/
theorem chunksFrom_ne_nil (blob : List Nat) (offset : Nat) :
    ∀ c ∈ chunksFrom blob offset, c.2 ≠ [] := by
  intro c hc
  by_cases h : offset < blob.length
  · rw [chunksFrom_of_lt blob offset h] at hc
    rcases List.mem_cons.1 hc with rfl | hc
    · have hlen : (chunkAt blob offset).length ≠ 0 := by
        simp only [chunkAt, List.length_take, List.length_drop, chunkSize]
        omega
      show chunkAt blob offset ≠ []
      exact fun hnil => hlen (by rw [hnil]; rfl)
    · exact chunksFrom_ne_nil blob (offset + chunkSize) c hc
  · rw [chunksFrom_of_le blob offset (Nat.le_of_not_lt h)] at hc
    cases hc
termination_by blob.length - offset
decreasing_by simp [chunkSize]; omega

/-- When the remaining length is an exact multiple of the limit, every chunk
(including the final one) has length exactly `chunkSize`. -/
theorem chunksFrom_full (blob : List Nat) (offset : Nat)
    (hdvd : chunkSize ∣ (blob.length - offset)) :
    ∀ c ∈ chunksFrom blob offset, c.2.length = chunkSize := by
  intro c hc
  by_cases h : offset < blob.length
  · rw [chunksFrom_of_lt blob offset h] at hc
    obtain ⟨k, hk⟩ := hdvd
    rcases List.mem_cons.1 hc with rfl | hc
    · simp only [chunkAt, List.length_take, List.length_drop, chunkSize] at *
      omega
    · refine chunksFrom_full blob (offset + chunkSize) ?_ c hc
      refine ⟨k - 1, ?_⟩
      simp only [chunkSize] at *
      omega
  · rw [chunksFrom_of_le blob offset (Nat.le_of_not_lt h)] at hc
    cases hc
termination_by blob.length - offset
decreasing_by simp [chunkSize]; omega

/-- The chunk stored at list index `i` sits at byte offset
`offset + chunkSize * i` and holds the slice taken there. -/
theorem chunksFrom_getElem? (blob : List Nat) (offset i : Nat) (c : Nat × List Nat)
    (h : (chunksFrom blob offset)[i]? = some c) :
    c.1 = offset + chunkSize * i ∧ c.2 = chunkAt blob (offset + chunkSize * i) ∧
      offset + chunkSize * i < blob.length := by
  by_cases hlt : offset < blob.length
  · rw [chunksFrom_of_lt blob offset hlt] at h
    cases i with
    | zero =>
      simp only [List.getElem?_cons_zero, Option.some.injEq] at h
      subst h
      simpa using hlt
    | succ j =>
      simp only [List.getElem?_cons_succ] at h
      have := chunksFrom_getElem? blob (offset + chunkSize) j c h
      refine ⟨by rw [this.1]; ring, by rw [this.2.1]; ring_nf, ?_⟩
      have h3 := this.2.2
      simp only [chunkSize] at *
      omega
  · rw [chunksFrom_of_le blob offset (Nat.le_of_not_lt hlt)] at h
    simp at h
termination_by blob.length - offset
decreasing_by simp [chunkSize]; omega
@[simp] theorem addLog_s_status (l : String) (st : RunSt) :
    (addLog l st).s.status = st.s.status := rfl

@[simp] theorem addLog_trace (l : String) (st : RunSt) :
    (addLog l st).trace = st.trace := rfl

@[simp] theorem addLog_nsend (l : String) (st : RunSt) :
    (addLog l st).nsend = st.nsend := rfl

@[simp] theorem emit_trace (e : RunEvent) (st : RunSt) :
    (emit e st).trace = st.trace ++ [e] := rfl

@[simp] theorem emit_nsend (e : RunEvent) (st : RunSt) :
    (emit e st).nsend = st.nsend := rfl

theorem sendAndConfirm_ok (ledger : Ledger) (tx : Transaction) (st : RunSt)
    (h : String) (hs : ledger.sendConfirm st.nsend = Except.ok h) :
    sendAndConfirmTransaction ledger tx st =
      Except.ok (h, ⟨st.s,
        st.trace ++ [RunEvent.submitted tx, RunEvent.confirmed tx h],
        st.nsend + 1⟩) := by
  unfold sendAndConfirmTransaction
  rw [hs]
  simp

theorem sendAndConfirm_error (ledger : Ledger) (tx : Transaction) (st : RunSt)
    (e : String) (hs : ledger.sendConfirm st.nsend = Except.error e) :
    sendAndConfirmTransaction ledger tx st =
      Except.error (e, ⟨st.s, st.trace ++ [RunEvent.submitted tx], st.nsend + 1⟩) := by
  unfold sendAndConfirmTransaction
  rw [hs]

@[simp] theorem addLog_s_logs (l : String) (st : RunSt) :
    (addLog l st).s.logs = st.s.logs ++ [l] := rfl

@[simp] theorem addLog_s_message (l : String) (st : RunSt) :
    (addLog l st).s.message = st.s.message := rfl

@[simp] theorem addLog_s_programId (l : String) (st : RunSt) :
    (addLog l st).s.programId = st.s.programId := rfl

@[simp] theorem emit_s (e : RunEvent) (st : RunSt) : (emit e st).s = st.s := rfl

theorem writeChunksLoop_ok (ledger : Ledger) (pk : String) (blob : List Nat)
    (hashFn : Nat → String)
    (hok : ∀ n, ledger.sendConfirm n = Except.ok (hashFn n))
    (offset : Nat) (st : RunSt) :
    writeChunksLoop ledger pk blob offset st = Except.ok
      ⟨{ st.s with logs := st.s.logs ++ writeLogs hashFn st.nsend (chunksFrom blob offset) },
       st.trace ++ writeEvents pk hashFn st.nsend (chunksFrom blob offset),
       st.nsend + (chunksFrom blob offset).length⟩ := by
  by_cases h : offset < blob.length
  · rw [writeChunksLoop, dif_pos h,
      sendAndConfirm_ok ledger _ st (hashFn st.nsend) (hok st.nsend)]
    simp only [writeChunksLoop_ok ledger pk blob hashFn hok (offset + chunkSize)]
    rw [chunksFrom_of_lt blob offset h]
    simp only [writeEvents, writeLogs, addLog_s_logs, addLog_s_message, addLog_s_programId,
      addLog_s_status, addLog_trace, addLog_nsend, List.length_cons, Except.ok.injEq,
      RunSt.mk.injEq, DeploymentStatus.mk.injEq, List.append_assoc, List.cons_append,
      List.nil_append]
    repeat' apply And.intro
    all_goals first | rfl | omega | trivial
  · rw [writeChunksLoop, dif_neg h, chunksFrom_of_le blob offset (Nat.le_of_not_lt h)]
    simp [writeEvents, writeLogs]
termination_by blob.length - offset
decreasing_by simp [chunkSize]; omega

theorem writeChunksLoop_fail (ledger : Ledger) (pk : String) (blob : List Nat)
    (hashFn : Nat → String) (k : Nat) (e : String)
    (hok : ∀ n, n < k → ledger.sendConfirm n = Except.ok (hashFn n))
    (hfail : ledger.sendConfirm k = Except.error e)
    (offset : Nat) (st : RunSt) (hn : st.nsend ≤ k)
    (hk : k - st.nsend < (chunksFrom blob offset).length) :
    writeChunksLoop ledger pk blob offset st = Except.error (e,
      ⟨{ st.s with logs := st.s.logs ++
          writeLogs hashFn st.nsend ((chunksFrom blob offset).take (k - st.nsend)) },
       st.trace ++ writeEvents pk hashFn st.nsend ((chunksFrom blob offset).take (k - st.nsend)) ++
          [RunEvent.submitted (writeTransaction pk (offset + chunkSize * (k - st.nsend))
            (chunkAt blob (offset + chunkSize * (k - st.nsend))))],
       k + 1⟩) := by
  by_cases h : offset < blob.length
  · by_cases hek : st.nsend = k
    · rw [writeChunksLoop, dif_pos h,
        sendAndConfirm_error ledger _ st e (by rw [hek]; exact hfail), hek]
      simp [writeEvents, writeLogs, Nat.sub_self]
    · have hlt : st.nsend < k := Nat.lt_of_le_of_ne hn hek
      have hk2 : k - (st.nsend + 1) < (chunksFrom blob (offset + chunkSize)).length := by
        rw [chunksFrom_of_lt blob offset h] at hk
        simp only [List.length_cons] at hk
        omega
      rw [writeChunksLoop, dif_pos h,
        sendAndConfirm_ok ledger _ st (hashFn st.nsend) (hok st.nsend hlt)]
      simp only [writeChunksLoop_fail ledger pk blob hashFn k e hok hfail (offset + chunkSize)
        (addLog ("Wrote chunk at offset " ++ toString offset ++
          ": https://explorer.solana.com/tx/" ++ hashFn st.nsend ++ "?cluster=devnet")
          ⟨st.s, st.trace ++ [RunEvent.submitted (writeTransaction pk offset (chunkAt blob offset)),
            RunEvent.confirmed (writeTransaction pk offset (chunkAt blob offset)) (hashFn st.nsend)],
            st.nsend + 1⟩)
        (by simp; omega) (by simpa using hk2)]
      rw [chunksFrom_of_lt blob offset h]
      have hsub : k - st.nsend = (k - (st.nsend + 1)) + 1 := by omega
      have hoff : (offset + chunkSize) + chunkSize * (k - (st.nsend + 1)) =
          offset + chunkSize * (k - st.nsend) := by rw [hsub]; ring
      rw [hsub, List.take_succ_cons]
      simp only [writeEvents, writeLogs, addLog_s_logs, addLog_s_message, addLog_s_programId,
        addLog_s_status, addLog_trace, addLog_nsend, Except.error.injEq, RunSt.mk.injEq,
        DeploymentStatus.mk.injEq, List.append_assoc, List.cons_append, List.nil_append, hoff]
      rw [← hsub]
  · exfalso
    rw [chunksFrom_of_le blob offset (Nat.le_of_not_lt h)] at hk
    simp at hk
termination_by blob.length - offset
decreasing_by simp [chunkSize]; omega

theorem deployBody_ok (p : DeployParams) (ledger : Ledger) (blob : List Nat)
    (payer : String) (rentAmt : Nat) (hashFn : Nat → String)
    (hconn : ledger.conn = Except.ok payer)
    (hrent : ledger.rent = Except.ok rentAmt)
    (hok : ∀ n, ledger.sendConfirm n = Except.ok (hashFn n)) :
    deployBody p ledger blob = Except.ok
      (⟨⟨"deploying", "Starting Solana program deployment...",
          happyLogs p payer rentAmt blob hashFn, none⟩,
        happyTrace payer (identityOf p payer) rentAmt blob hashFn,
        (chunks blob).length + 2⟩,
       identityOf p payer) := by
  cases hkc : p.keypairCtorFails <;>
    simp only [deployBody, identityOf, hkc, Bool.false_eq_true, if_false, if_true, hconn,
      hrent] <;>
  · rw [sendAndConfirm_ok ledger _ _ (hashFn 0) (by simp; exact hok 0)]
    simp only [writeChunksLoop_ok ledger _ blob hashFn hok 0]
    rw [sendAndConfirm_ok ledger _ _ (hashFn (1 + (chunksFrom blob 0).length))
      (by simp; exact hok _)]
    simp only [happyLogs, happyTrace, chunks, hkc, Bool.false_eq_true, if_false, if_true,
      addLog, emit, Nat.zero_add, Nat.add_zero, Except.ok.injEq, Prod.mk.injEq,
      RunSt.mk.injEq, DeploymentStatus.mk.injEq, List.append_assoc, List.cons_append,
      List.nil_append, List.singleton_append]
    repeat' apply And.intro
    all_goals first | rfl | omega | trivial

theorem deployBody_writeFail (p : DeployParams) (ledger : Ledger) (blob : List Nat)
    (payer : String) (rentAmt : Nat) (hashFn : Nat → String) (i : Nat) (e : String)
    (hconn : ledger.conn = Except.ok payer)
    (hrent : ledger.rent = Except.ok rentAmt)
    (hok : ∀ n, n < i + 1 → ledger.sendConfirm n = Except.ok (hashFn n))
    (hfail : ledger.sendConfirm (i + 1) = Except.error e)
    (hi : i < (chunks blob).length) :
    deployBody p ledger blob = Except.error (e,
      ⟨⟨"deploying", "Starting Solana program deployment...",
          writeFailLogs p payer rentAmt blob hashFn i, none⟩,
        writeFailTrace payer (identityOf p payer) rentAmt blob hashFn i, i + 2⟩) := by
  have hi0 : i < (chunksFrom blob 0).length := by simpa [chunks] using hi
  have h1 : 1 ≤ i + 1 := by omega
  cases hkc : p.keypairCtorFails <;>
    simp only [deployBody, identityOf, hkc, Bool.false_eq_true, if_false, if_true, hconn,
      hrent] <;>
  · rw [sendAndConfirm_ok ledger _ _ (hashFn 0) (by simp; exact hok 0 (by omega))]
    simp only [writeChunksLoop_fail ledger _ blob hashFn (i + 1) e hok hfail 0,
      Nat.zero_add, Nat.add_sub_cancel, hi0, h1, addLog_nsend, addLog_trace, addLog_s_logs,
      emit_nsend, emit_trace]
    simp only [writeFailLogs, writeFailTrace, chunks, hkc, Bool.false_eq_true, if_false,
      if_true, addLog, emit, Nat.zero_add, Nat.add_zero, Except.error.injEq, Prod.mk.injEq,
      RunSt.mk.injEq, DeploymentStatus.mk.injEq, List.append_assoc, List.cons_append,
      List.nil_append, List.singleton_append]

theorem deployProgram_of_missing (p : DeployParams) (ledger : Ledger)
    (s0 : DeploymentStatus) (hv : missingRequiredFields p = true) :
    deployProgram p ledger s0 = (s0, []) := by
  simp [deployProgram, hv]

theorem deployProgram_of_body_ok (p : DeployParams) (ledger : Ledger)
    (s0 : DeploymentStatus) (blob : List Nat) (st : RunSt) (pk : String)
    (hv : missingRequiredFields p = false) (hdata : p.programData = some blob)
    (hb : deployBody p ledger blob = Except.ok (st, pk)) :
    deployProgram p ledger s0 = (successStatus s0 pk, st.trace) := by
  simp [deployProgram, hv, hdata, hb]

theorem deployProgram_of_body_error (p : DeployParams) (ledger : Ledger)
    (s0 : DeploymentStatus) (blob : List Nat) (e : String) (st : RunSt)
    (hv : missingRequiredFields p = false) (hdata : p.programData = some blob)
    (hb : deployBody p ledger blob = Except.error (e, st)) :
    deployProgram p ledger s0 = (errorStatus s0 e, st.trace) := by
  simp [deployProgram, hv, hdata, hb]

theorem deployBody_ok_pk (p : DeployParams) (ledger : Ledger) (blob : List Nat)
    (payer : String) (st : RunSt) (pk : String)
    (hconn : ledger.conn = Except.ok payer)
    (hb : deployBody p ledger blob = Except.ok (st, pk)) :
    pk = identityOf p payer := by
  simp only [deployBody, hconn] at hb
  repeat' split at hb
  all_goals simp_all

/-- Every event of the canonical write interleaving is the submission or the
confirmation of the write transaction of one of the listed chunks. -/
theorem mem_writeEvents (pk : String) (hashFn : Nat → String) (n0 : Nat)
    (cs : List (Nat × List Nat)) (ev : RunEvent)
    (hev : ev ∈ writeEvents pk hashFn n0 cs) :
    (∃ c ∈ cs, ev = RunEvent.submitted (writeTransaction pk c.1 c.2)) ∨
    (∃ c ∈ cs, ∃ h, ev = RunEvent.confirmed (writeTransaction pk c.1 c.2) h) := by
  induction cs generalizing n0 with
  | nil => simp [writeEvents] at hev
  | cons c rest ih =>
    simp only [writeEvents, List.mem_cons] at hev
    rcases hev with rfl | rfl | hev
    · exact Or.inl ⟨c, List.mem_cons_self c rest, rfl⟩
    · exact Or.inr ⟨c, List.mem_cons_self c rest, hashFn n0, rfl⟩
    · rcases ih (n0 + 1) hev with ⟨c2, hc2, hc⟩ | ⟨c2, hc2, h2, hc⟩
      · exact Or.inl ⟨c2, List.mem_cons_of_mem c hc2, hc⟩
      · exact Or.inr ⟨c2, List.mem_cons_of_mem c hc2, h2, hc⟩

theorem mem_take_getElem? {α : Type} (l : List α) (m : Nat) (a : α)
    (h : a ∈ l.take m) : ∃ j, j < m ∧ l[j]? = some a := by
  induction l generalizing m with
  | nil => simp at h
  | cons x xs ih =>
    cases m with
    | zero => simp at h
    | succ m2 =>
      rw [List.take_succ_cons] at h
      rcases List.mem_cons.1 h with rfl | h2
      · exact ⟨0, Nat.succ_pos m2, by simp⟩
      · obtain ⟨j, hj, hget⟩ := ih m2 h2
        exact ⟨j + 1, Nat.succ_lt_succ hj, by simpa using hget⟩

theorem leDecode4_uint32LE (n : Nat) : leDecode4 (uint32LE n) = n % 4294967296 := by
  simp only [uint32LE, leDecode4]
  omega

theorem uint32LE_inj (a b : Nat) (ha : a < 4294967296) (hb : b < 4294967296)
    (h : uint32LE a = uint32LE b) : a = b := by
  have := congrArg leDecode4 h
  rw [leDecode4_uint32LE, leDecode4_uint32LE] at this
  omega

/-- Claim C1: for every non-empty blob, the chunking loop with limit 900
produces chunks at offsets 0, 900, 1800, ..., each of length at most 900,
whose lengths sum to the blob length and whose in-order concatenation is the
blob; when 900 divides the blob length every chunk (the final one included)
has length exactly 900 and no empty trailing chunk is produced. -/
theorem c1_chunk_partition (blob : List Nat) (hne : blob ≠ []) :
    (∀ i c, (chunks blob)[i]? = some c → c.1 = chunkSize * i) ∧
    (∀ c ∈ chunks blob, c.2.length ≤ chunkSize) ∧
    ((chunks blob).map (fun c => c.2.length)).sum = blob.length ∧
    ((chunks blob).map Prod.snd).flatten = blob ∧
    chunks blob ≠ [] ∧
    (chunkSize ∣ blob.length →
      (∀ c ∈ chunks blob, c.2.length = chunkSize) ∧ ∀ c ∈ chunks blob, c.2 ≠ []) := by
  have hpos : 0 < blob.length := List.length_pos.2 hne
  refine ⟨?_, ?_, ?_, ?_, ?_, ?_⟩
  · intro i c h
    have := chunksFrom_getElem? blob 0 i c h
    simpa using this.1
  · exact chunksFrom_length_le blob 0
  · simpa using chunksFrom_sum_lengths blob 0
  · simpa using chunksFrom_flatten blob 0
  · rw [chunks, chunksFrom_of_lt blob 0 hpos]
    simp
  · intro hdvd
    exact ⟨chunksFrom_full blob 0 (by simpa using hdvd), chunksFrom_ne_nil blob 0⟩

/-- Witness for C1 at a concrete 1800-byte blob (an exact multiple of 900). -/
theorem c1_chunk_partition_witness :
    (List.replicate 1800 (7 : Nat) ≠ []) ∧
    ((∀ i c, (chunks (List.replicate 1800 (7 : Nat)))[i]? = some c → c.1 = chunkSize * i) ∧
     (∀ c ∈ chunks (List.replicate 1800 (7 : Nat)), c.2.length ≤ chunkSize) ∧
     ((chunks (List.replicate 1800 (7 : Nat))).map (fun c => c.2.length)).sum =
       (List.replicate 1800 (7 : Nat)).length ∧
     ((chunks (List.replicate 1800 (7 : Nat))).map Prod.snd).flatten =
       List.replicate 1800 (7 : Nat) ∧
     chunks (List.replicate 1800 (7 : Nat)) ≠ [] ∧
     (chunkSize ∣ (List.replicate 1800 (7 : Nat)).length →
       (∀ c ∈ chunks (List.replicate 1800 (7 : Nat)), c.2.length = chunkSize) ∧
       ∀ c ∈ chunks (List.replicate 1800 (7 : Nat)), c.2 ≠ [])) :=
  ⟨by
    intro h
    have h2 := congrArg List.length h
    rw [List.length_replicate] at h2
    exact absurd h2 (by decide),
   c1_chunk_partition (List.replicate 1800 7) (by
    intro h
    have h2 := congrArg List.length h
    rw [List.length_replicate] at h2
    exact absurd h2 (by decide))⟩

/-- Claim C4: the chunk-write instruction's payload is the 4-byte LE
discriminant 0, then the 4-byte LE offset, then the chunk bytes (length
8 + |bytes|); decoding recovers the offset and bytes, and the single
declared account key is the program identity, signer and writable. -/
theorem c4_write_instruction (pk : String) (offset : Nat) (chunk : List Nat)
    (hoff : offset < 4294967296) :
    (writeInstruction pk offset chunk).data = uint32LE 0 ++ uint32LE offset ++ chunk ∧
    (writeInstruction pk offset chunk).data.length = 8 + chunk.length ∧
    decodeWritePayload (writeInstruction pk offset chunk).data = some (offset, chunk) ∧
    (writeInstruction pk offset chunk).keys =
      [{ pubkey := pk, isSigner := true, isWritable := true }] := by
  refine ⟨rfl, ?_, ?_, rfl⟩
  · simp [writeInstruction, writeInstructionData, uint32LE]
    omega
  · simp [writeInstruction, writeInstructionData, decodeWritePayload, uint32LE, leDecode4]
    omega

/-- Witness for C4 at offset 900 and chunk bytes `[1, 2, 3]`. -/
theorem c4_write_instruction_witness :
    (900 : Nat) < 4294967296 ∧
    ((writeInstruction "P" 900 [1, 2, 3]).data = uint32LE 0 ++ uint32LE 900 ++ [1, 2, 3] ∧
     (writeInstruction "P" 900 [1, 2, 3]).data.length = 8 + [1, 2, 3].length ∧
     decodeWritePayload (writeInstruction "P" 900 [1, 2, 3]).data = some (900, [1, 2, 3]) ∧
     (writeInstruction "P" 900 [1, 2, 3]).keys =
       [{ pubkey := "P", isSigner := true, isWritable := true }]) :=
  ⟨by decide, c4_write_instruction "P" 900 [1, 2, 3] (by decide)⟩

/-- Claim C5: the finalize instruction's payload is exactly the 4-byte LE
discriminant 1, and it declares exactly the program identity
(signer, writable) followed by the rent sysvar (read-only, not a signer). -/
theorem c5_finalize_instruction (pk : String) :
    (finalizeInstruction pk).data = uint32LE 1 ∧
    (finalizeInstruction pk).data.length = 4 ∧
    leDecode4 (finalizeInstruction pk).data = 1 ∧
    (finalizeInstruction pk).keys =
      [{ pubkey := pk, isSigner := true, isWritable := true },
       { pubkey := "SysvarRent111111111111111111111111111111111",
         isSigner := false, isWritable := false }] := by
  refine ⟨rfl, by simp [finalizeInstruction, uint32LE], ?_, by simp [finalizeInstruction, RENT_SYSVAR]⟩
  simp [finalizeInstruction, uint32LE, leDecode4]

theorem writeTransaction_offset_inj (pk : String) (o1 o2 : Nat) (b1 b2 : List Nat)
    (h1 : o1 < 4294967296) (h2 : o2 < 4294967296)
    (h : writeTransaction pk o1 b1 = writeTransaction pk o2 b2) : o1 = o2 := by
  simp only [writeTransaction, writeInstruction, writeInstructionData, Transaction.mk.injEq,
    List.cons.injEq, Instr.loader.injEq, TransactionInstruction.mk.injEq, and_true,
    true_and] at h
  have hd : uint32LE 0 ++ (uint32LE o1 ++ b1) = uint32LE 0 ++ (uint32LE o2 ++ b2) := by
    simpa [List.append_assoc] using h
  have hd2 : uint32LE o1 ++ b1 = uint32LE o2 ++ b2 := by
    have hlen : (uint32LE 0).length = (uint32LE 0).length := rfl
    exact (List.append_inj hd hlen).2
  have hd3 : uint32LE o1 = uint32LE o2 := (List.append_inj hd2 (by simp [uint32LE])).1
  exact uint32LE_inj o1 o2 h1 h2 hd3

/-- Claim C2: under an always-confirming ledger, the run's trace is exactly
the canonical strictly sequential interleaving: connection, rent query,
account creation submit/confirm, then for each chunk in ascending offset
order its submission immediately followed by its confirmation, then the
finalize submit/confirm; chunk offsets ascend as 0, 900, 1800, ... -/
theorem c2_sequential_writes (p : DeployParams) (ledger : Ledger)
    (s0 : DeploymentStatus) (blob : List Nat) (payer : String) (rentAmt : Nat)
    (hashFn : Nat → String)
    (hv : missingRequiredFields p = false) (hdata : p.programData = some blob)
    (hconn : ledger.conn = Except.ok payer) (hrent : ledger.rent = Except.ok rentAmt)
    (hok : ∀ n, ledger.sendConfirm n = Except.ok (hashFn n)) :
    (deployProgram p ledger s0).2 =
      happyTrace payer (identityOf p payer) rentAmt blob hashFn ∧
    (∀ i c, (chunks blob)[i]? = some c → c.1 = chunkSize * i) := by
  constructor
  · rw [deployProgram_of_body_ok p ledger s0 blob _ _ hv hdata
      (deployBody_ok p ledger blob payer rentAmt hashFn hconn hrent hok)]
  · intro i c h
    simpa using (chunksFrom_getElem? blob 0 i c h).1

/-- Witness for C2: a 2000-byte blob on an always-confirming ledger. -/
theorem c2_sequential_writes_witness :
    missingRequiredFields (okParams (List.replicate 2000 0)) = false ∧
    ((deployProgram (okParams (List.replicate 2000 0)) okLedger idleStatus).2 =
       happyTrace "Payer" (identityOf (okParams (List.replicate 2000 0)) "Payer") 12345
         (List.replicate 2000 0) (fun _ => "H") ∧
     (∀ i c, (chunks (List.replicate 2000 0))[i]? = some c → c.1 = chunkSize * i)) :=
  ⟨by decide, c2_sequential_writes _ okLedger idleStatus _ "Payer" 12345 (fun _ => "H")
    (by decide) rfl rfl rfl (fun _ => rfl)⟩

/-- Claim C3 (amended): if the send-and-confirm call for chunk i fails, no
chunk beyond i is submitted, the run terminates in the error state with the
underlying error text in the terminal message and log; the terminal result
carries no last-confirmed-offset field. -/
theorem c3_failstop (p : DeployParams) (ledger : Ledger) (s0 : DeploymentStatus)
    (blob : List Nat) (payer : String) (rentAmt : Nat) (hashFn : Nat → String)
    (i : Nat) (e : String)
    (hv : missingRequiredFields p = false) (hdata : p.programData = some blob)
    (hconn : ledger.conn = Except.ok payer) (hrent : ledger.rent = Except.ok rentAmt)
    (hok : ∀ n, n < i + 1 → ledger.sendConfirm n = Except.ok (hashFn n))
    (hfail : ledger.sendConfirm (i + 1) = Except.error e)
    (hi : i < (chunks blob).length)
    (hsz : blob.length ≤ 4294967296) :
    (deployProgram p ledger s0).1 = errorStatus s0 e ∧
    (deployProgram p ledger s0).1.status = "error" ∧
    ("Error: " ++ e) ∈ (deployProgram p ledger s0).1.logs ∧
    (deployProgram p ledger s0).2 =
      writeFailTrace payer (identityOf p payer) rentAmt blob hashFn i ∧
    (∀ j c, (chunks blob)[j]? = some c → i < j →
      RunEvent.submitted (writeTransaction (identityOf p payer) c.1 c.2) ∉
        (deployProgram p ledger s0).2) := by
  have hb := deployBody_writeFail p ledger blob payer rentAmt hashFn i e hconn hrent hok hfail hi
  have hdp := deployProgram_of_body_error p ledger s0 blob e _ hv hdata hb
  rw [hdp]
  refine ⟨rfl, rfl, by simp [errorStatus], rfl, ?_⟩
  intro j c hc hij hmem
  have hj := chunksFrom_getElem? blob 0 j c hc
  have hc1 : c.1 = chunkSize * j := by simpa using hj.1
  have hcb : c.1 < blob.length := by
    have := hj.2.2
    omega
  simp only [writeFailTrace, List.append_assoc, List.cons_append, List.nil_append,
    List.mem_cons, List.mem_append, List.mem_singleton, List.not_mem_nil, or_false] at hmem
  rcases hmem with h1 | h2 | h3 | h4 | h5 | h6
  · exact absurd h1 (by simp)
  · exact absurd h2 (by simp)
  · exact absurd h3 (by simp [writeTransaction, createAccountTransaction, writeInstruction])
  · exact absurd h4 (by simp)
  · rcases mem_writeEvents _ _ _ _ _ h5 with ⟨c2, hc2mem, hceq⟩ | ⟨c2, hc2mem, h2, hceq⟩
    · obtain ⟨j2, hj2, hget2⟩ := mem_take_getElem? _ i c2 hc2mem
      have hj2e := chunksFrom_getElem? blob 0 j2 c2 hget2
      have hc21 : c2.1 = chunkSize * j2 := by simpa using hj2e.1
      have hc2b : c2.1 < blob.length := by
        have := hj2e.2.2
        omega
      have heq : c.1 = c2.1 := by
        refine writeTransaction_offset_inj (identityOf p payer) c.1 c2.1 c.2 c2.2 (by omega) (by omega) ?_
        exact RunEvent.submitted.inj hceq
      rw [hc1, hc21] at heq
      have : j = j2 := by
        simp only [chunkSize] at heq
        omega
      omega
    · exact absurd hceq (by simp)
  · have hib : chunkSize * i < blob.length := by
      have hgi : (chunks blob)[i]? = some ((chunks blob).get ⟨i, hi⟩) := by
        simp [List.getElem?_eq_getElem hi]
      have := chunksFrom_getElem? blob 0 i _ hgi
      have h2 := this.2.2
      omega
    have heq : c.1 = chunkSize * i := by
      refine writeTransaction_offset_inj (identityOf p payer) c.1 (chunkSize * i) c.2
        (chunkAt blob (chunkSize * i)) (by omega) (by omega) ?_
      exact RunEvent.submitted.inj h6
    rw [hc1] at heq
    have : j = i := by
      simp only [chunkSize] at heq
      omega
    omega

theorem chunks_replicate_2000 :
    chunks (List.replicate 2000 (0 : Nat)) =
      [(0, List.replicate 900 0), (900, List.replicate 900 0), (1800, List.replicate 200 0)] := by
  simp only [chunks]
  rw [chunksFrom, chunksFrom, chunksFrom, chunksFrom]
  norm_num [chunkAt, chunkSize, List.drop_replicate, List.take_replicate]

/-- Witness for the amended C3: 2000-byte blob, failure on the second write. -/
theorem c3_failstop_witness :
    missingRequiredFields (okParams (List.replicate 2000 0)) = false ∧
    1 < (chunks (List.replicate 2000 0)).length ∧
    ((deployProgram (okParams (List.replicate 2000 0)) (failAtLedger 2 "boom") idleStatus).1 =
       errorStatus idleStatus "boom" ∧
     (deployProgram (okParams (List.replicate 2000 0)) (failAtLedger 2 "boom") idleStatus).1.status =
       "error" ∧
     ("Error: " ++ "boom") ∈
       (deployProgram (okParams (List.replicate 2000 0)) (failAtLedger 2 "boom") idleStatus).1.logs ∧
     (deployProgram (okParams (List.replicate 2000 0)) (failAtLedger 2 "boom") idleStatus).2 =
       writeFailTrace "Payer" (identityOf (okParams (List.replicate 2000 0)) "Payer") 12345
         (List.replicate 2000 0) (fun _ => "H") 1 ∧
     (∀ j c, (chunks (List.replicate 2000 0))[j]? = some c → 1 < j →
       RunEvent.submitted
           (writeTransaction (identityOf (okParams (List.replicate 2000 0)) "Payer") c.1 c.2) ∉
         (deployProgram (okParams (List.replicate 2000 0)) (failAtLedger 2 "boom") idleStatus).2)) := by
  have hi : 1 < (chunks (List.replicate 2000 0)).length := by
    rw [chunks_replicate_2000]
    decide
  refine ⟨by decide, hi, ?_⟩
  exact c3_failstop (okParams (List.replicate 2000 0)) (failAtLedger 2 "boom") idleStatus
    (List.replicate 2000 0) "Payer" 12345 (fun _ => "H") 1 "boom"
    (by decide) rfl rfl rfl
    (by intro n hn; simp [failAtLedger, hn])
    (by simp [failAtLedger])
    hi
    (by rw [List.length_replicate]; omega)

/-- Counterexample for C3 as stated: at the spec's own failure scenario the
terminal result is a status record with no offset information at all — the
decimal rendering of 900 occurs nowhere in its message or logs. -/
theorem c3_counterexample :
    (deployProgram (okParams (List.replicate 2000 0)) (failAtLedger 2 "confirmation failed")
        idleStatus).1 =
      { status := "error", message := "Error deploying program: confirmation failed",
        logs := ["Error: confirmation failed"], programId := none } ∧
    spec_reportsLastConfirmedOffset
      (deployProgram (okParams (List.replicate 2000 0)) (failAtLedger 2 "confirmation failed")
        idleStatus).1 900 = false := by
  have hi : 1 < (chunks (List.replicate 2000 0)).length := by
    rw [chunks_replicate_2000]
    decide
  have hb := deployBody_writeFail (okParams (List.replicate 2000 0))
    (failAtLedger 2 "confirmation failed") (List.replicate 2000 0) "Payer" 12345
    (fun _ => "H") 1 "confirmation failed" rfl rfl
    (by intro n hn; simp [failAtLedger, hn])
    (by simp [failAtLedger]) hi
  have hdp := deployProgram_of_body_error (okParams (List.replicate 2000 0))
    (failAtLedger 2 "confirmation failed") idleStatus (List.replicate 2000 0)
    "confirmation failed" _ (by decide) rfl hb
  rw [hdp]
  constructor
  · decide
  · decide

theorem chunks_nil : chunks ([] : List Nat) = [] := by
  rw [chunks, chunksFrom_of_le]
  simp

theorem chunks_three : chunks [1, 2, 3] = [(0, [1, 2, 3])] := by
  simp only [chunks]
  rw [chunksFrom, chunksFrom]
  norm_num [chunkAt, chunkSize]

/-- Claim C6 (amended): with complete configuration an empty uploaded blob is
not rejected — the run creates the connection, submits the account-creation
and finalize transactions (and no write transaction), and reports success
when everything confirms. -/
theorem c6_empty_blob (p : DeployParams) (ledger : Ledger) (s0 : DeploymentStatus)
    (payer : String) (rentAmt : Nat) (hashFn : Nat → String)
    (hv : missingRequiredFields p = false) (hdata : p.programData = some [])
    (hconn : ledger.conn = Except.ok payer) (hrent : ledger.rent = Except.ok rentAmt)
    (hok : ∀ n, ledger.sendConfirm n = Except.ok (hashFn n)) :
    (deployProgram p ledger s0).1 = successStatus s0 (identityOf p payer) ∧
    (deployProgram p ledger s0).1.status = "success" ∧
    (deployProgram p ledger s0).2 =
      [RunEvent.connCreated, RunEvent.rentQueried 0,
       RunEvent.submitted (createAccountTransaction payer (identityOf p payer) rentAmt 0),
       RunEvent.confirmed (createAccountTransaction payer (identityOf p payer) rentAmt 0)
         (hashFn 0),
       RunEvent.submitted (finalizeTransaction (identityOf p payer)),
       RunEvent.confirmed (finalizeTransaction (identityOf p payer)) (hashFn 1)] ∧
    (∀ off ch, RunEvent.submitted (writeTransaction (identityOf p payer) off ch) ∉
      (deployProgram p ledger s0).2) := by
  have hb := deployBody_ok p ledger [] payer rentAmt hashFn hconn hrent hok
  have hdp := deployProgram_of_body_ok p ledger s0 [] _ _ hv hdata hb
  rw [hdp]
  refine ⟨rfl, rfl, ?_, ?_⟩
  · simp [happyTrace, chunks_nil, writeEvents]
  · intro off ch hmem
    simp only [happyTrace, chunks_nil, writeEvents, List.append_assoc, List.cons_append,
      List.nil_append, List.mem_cons, List.mem_append, List.not_mem_nil, or_false] at hmem
    rcases hmem with h1 | h2 | h3 | h4 | h5 | h6
    · exact absurd h1 (by simp)
    · exact absurd h2 (by simp)
    · exact absurd h3 (by simp [writeTransaction, createAccountTransaction, writeInstruction])
    · exact absurd h4 (by simp)
    · exact absurd h5
        (by simp [writeTransaction, finalizeTransaction, writeInstruction, finalizeInstruction])
    · exact absurd h6 (by simp)

/-- Witness for the amended C6 at a concrete empty-blob run. -/
theorem c6_empty_blob_witness :
    missingRequiredFields (okParams []) = false ∧
    ((deployProgram (okParams []) okLedger idleStatus).1 =
       successStatus idleStatus (identityOf (okParams []) "Payer") ∧
     (deployProgram (okParams []) okLedger idleStatus).1.status = "success" ∧
     (deployProgram (okParams []) okLedger idleStatus).2 =
       [RunEvent.connCreated, RunEvent.rentQueried 0,
        RunEvent.submitted
          (createAccountTransaction "Payer" (identityOf (okParams []) "Payer") 12345 0),
        RunEvent.confirmed
          (createAccountTransaction "Payer" (identityOf (okParams []) "Payer") 12345 0) "H",
        RunEvent.submitted (finalizeTransaction (identityOf (okParams []) "Payer")),
        RunEvent.confirmed (finalizeTransaction (identityOf (okParams []) "Payer")) "H"] ∧
     (∀ off ch, RunEvent.submitted (writeTransaction (identityOf (okParams []) "Payer") off ch) ∉
       (deployProgram (okParams []) okLedger idleStatus).2)) :=
  ⟨by decide, c6_empty_blob (okParams []) okLedger idleStatus "Payer" 12345 (fun _ => "H")
    (by decide) rfl rfl rfl (fun _ => rfl)⟩

/-- Counterexample for C6 as stated: the empty blob is not rejected before
any network call — the connection is created, transactions are submitted,
and the run reports success. -/
theorem c6_counterexample :
    (deployProgram (okParams []) okLedger idleStatus).1.status = "success" ∧
    RunEvent.connCreated ∈ (deployProgram (okParams []) okLedger idleStatus).2 ∧
    RunEvent.submitted (createAccountTransaction "Payer" "Payer" 12345 0) ∈
      (deployProgram (okParams []) okLedger idleStatus).2 ∧
    RunEvent.submitted (finalizeTransaction "Payer") ∈
      (deployProgram (okParams []) okLedger idleStatus).2 := by
  have hb := deployBody_ok (okParams []) okLedger [] "Payer" 12345 (fun _ => "H")
    rfl rfl (fun _ => rfl)
  have hdp := deployProgram_of_body_ok (okParams []) okLedger idleStatus [] _ _
    (by decide) rfl hb
  rw [hdp]
  refine ⟨rfl, ?_, ?_, ?_⟩ <;>
    simp [happyTrace, chunks_nil, writeEvents, identityOf, okParams]

/-- Claim C7 (amended): in a fully confirming run, the account-creation
transaction is the only submitted transaction carrying a local signature by
the program identity; every other submitted transaction (each chunk write
and the finalize) is submitted with an empty local-signer list even though
its instruction declares the identity as a signer. -/
theorem c7_local_cosign (p : DeployParams) (ledger : Ledger) (s0 : DeploymentStatus)
    (blob : List Nat) (payer : String) (rentAmt : Nat) (hashFn : Nat → String)
    (hv : missingRequiredFields p = false) (hdata : p.programData = some blob)
    (hconn : ledger.conn = Except.ok payer) (hrent : ledger.rent = Except.ok rentAmt)
    (hok : ∀ n, ledger.sendConfirm n = Except.ok (hashFn n)) :
    (createAccountTransaction payer (identityOf p payer) rentAmt
        blob.length).localSigners = [identityOf p payer] ∧
    (∀ tx, RunEvent.submitted tx ∈ (deployProgram p ledger s0).2 →
      tx = createAccountTransaction payer (identityOf p payer) rentAmt blob.length ∨
      tx.localSigners = []) := by
  have hb := deployBody_ok p ledger blob payer rentAmt hashFn hconn hrent hok
  have hdp := deployProgram_of_body_ok p ledger s0 blob _ _ hv hdata hb
  rw [hdp]
  refine ⟨rfl, ?_⟩
  intro tx hmem
  simp only [happyTrace, List.append_assoc, List.cons_append, List.nil_append,
    List.mem_cons, List.mem_append, List.not_mem_nil, or_false] at hmem
  rcases hmem with h1 | h2 | h3 | h4 | h5 | h6
  · exact absurd h1 (by simp)
  · exact absurd h2 (by simp)
  · exact Or.inl (RunEvent.submitted.inj h3)
  · exact absurd h4 (by simp)
  · rcases mem_writeEvents _ _ _ _ _ h5 with ⟨c2, _, hceq⟩ | ⟨c2, _, h2, hceq⟩
    · have := RunEvent.submitted.inj hceq
      subst this
      exact Or.inr rfl
    · exact absurd hceq (by simp)
  · rcases h6 with h6 | h7
    · have := RunEvent.submitted.inj h6
      subst this
      exact Or.inr rfl
    · exact absurd h7 (by simp)

/-- Witness for the amended C7 at a concrete three-byte run. -/
theorem c7_local_cosign_witness :
    missingRequiredFields (okParams [1, 2, 3]) = false ∧
    ((createAccountTransaction "Payer" (identityOf (okParams [1, 2, 3]) "Payer") 12345
        [1, 2, 3].length).localSigners = [identityOf (okParams [1, 2, 3]) "Payer"] ∧
     (∀ tx, RunEvent.submitted tx ∈ (deployProgram (okParams [1, 2, 3]) okLedger idleStatus).2 →
       tx = createAccountTransaction "Payer" (identityOf (okParams [1, 2, 3]) "Payer") 12345
         [1, 2, 3].length ∨
       tx.localSigners = [])) :=
  ⟨by decide, c7_local_cosign (okParams [1, 2, 3]) okLedger idleStatus [1, 2, 3] "Payer"
    12345 (fun _ => "H") (by decide) rfl rfl rfl (fun _ => rfl)⟩

/-- Counterexample for C7 as stated: the first chunk-write transaction of a
confirming run declares the program identity as a signer yet carries no
locally applied signature at submission. -/
theorem c7_counterexample :
    RunEvent.submitted (writeTransaction "Payer" 0 [1, 2, 3]) ∈
      (deployProgram (okParams [1, 2, 3]) okLedger idleStatus).2 ∧
    (writeInstruction "Payer" 0 [1, 2, 3]).keys =
      [{ pubkey := "Payer", isSigner := true, isWritable := true }] ∧
    (writeTransaction "Payer" 0 [1, 2, 3]).localSigners = [] := by
  have hb := deployBody_ok (okParams [1, 2, 3]) okLedger [1, 2, 3] "Payer" 12345
    (fun _ => "H") rfl rfl (fun _ => rfl)
  have hdp := deployProgram_of_body_ok (okParams [1, 2, 3]) okLedger idleStatus [1, 2, 3]
    _ _ (by decide) rfl hb
  refine ⟨?_, rfl, rfl⟩
  rw [hdp]
  simp [happyTrace, chunks_three, writeEvents, identityOf, okParams]

/-- Claim C8 (code bug): the run's functional `addLog` updates accumulate all
log lines, but the terminal success update rebuilds `logs` from the stale
closure value of `deploymentStatus`, so the final state drops every log line
emitted during the run and keeps only the terminal message. -/
theorem c8_stale_logs :
    (∃ st, deployBody (okParams [1, 2, 3]) okLedger [1, 2, 3] = Except.ok (st, "Payer") ∧
      "Starting Solana program deployment..." ∈ st.s.logs ∧
      "Wrote chunk at offset 0: https://explorer.solana.com/tx/H?cluster=devnet" ∈
        st.s.logs) ∧
    (deployProgram (okParams [1, 2, 3]) okLedger idleStatus).1.logs =
      ["Program deployment completed successfully!"] ∧
    "Starting Solana program deployment..." ∉
      (deployProgram (okParams [1, 2, 3]) okLedger idleStatus).1.logs ∧
    "Wrote chunk at offset 0: https://explorer.solana.com/tx/H?cluster=devnet" ∉
      (deployProgram (okParams [1, 2, 3]) okLedger idleStatus).1.logs := by
  have hb := deployBody_ok (okParams [1, 2, 3]) okLedger [1, 2, 3] "Payer" 12345
    (fun _ => "H") rfl rfl (fun _ => rfl)
  have hdp := deployProgram_of_body_ok (okParams [1, 2, 3]) okLedger idleStatus [1, 2, 3]
    _ _ (by decide) rfl hb
  refine ⟨⟨_, hb, ?_, ?_⟩, ?_, ?_, ?_⟩
  · simp only [happyLogs, chunks_three, writeLogs]
    decide
  · simp only [happyLogs, chunks_three, writeLogs]
    decide
  · rw [hdp]
    rfl
  · rw [hdp]
    decide
  · rw [hdp]
    decide

/-- Claim C9 (amended): once validation passes, every run ends either in the
success update or in the error update, and the error update appends a
human-readable `Error: <text>` entry carrying the underlying error text; a
failed validation, however, leaves the status untouched (toast only). -/
theorem c9_propagation (p : DeployParams) (ledger : Ledger) (s0 : DeploymentStatus)
    (hv : missingRequiredFields p = false) :
    (∃ pk, (deployProgram p ledger s0).1 = successStatus s0 pk) ∨
    (∃ e, (deployProgram p ledger s0).1 = errorStatus s0 e ∧
      (deployProgram p ledger s0).1.status = "error" ∧
      ("Error: " ++ e) ∈ (deployProgram p ledger s0).1.logs) := by
  have hdata : ∃ blob, p.programData = some blob := by
    cases hd : p.programData with
    | none =>
      exfalso
      simp [missingRequiredFields, hd] at hv
    | some blob => exact ⟨blob, rfl⟩
  obtain ⟨blob, hdata⟩ := hdata
  cases hb : deployBody p ledger blob with
  | ok v =>
    exact Or.inl ⟨v.2, by
      rw [deployProgram_of_body_ok p ledger s0 blob v.1 v.2 hv hdata (by simpa using hb)]⟩
  | error v =>
    refine Or.inr ⟨v.1, ?_, ?_, ?_⟩ <;>
      rw [deployProgram_of_body_error p ledger s0 blob v.1 v.2 hv hdata
        (by simpa using hb)] <;>
      simp [errorStatus]

/-- Witness for the amended C9: a run whose account creation fails. -/
theorem c9_propagation_witness :
    missingRequiredFields (okParams [1, 2, 3]) = false ∧
    ((∃ pk, (deployProgram (okParams [1, 2, 3]) (failAtLedger 0 "boom") idleStatus).1 =
        successStatus idleStatus pk) ∨
     (∃ e, (deployProgram (okParams [1, 2, 3]) (failAtLedger 0 "boom") idleStatus).1 =
        errorStatus idleStatus e ∧
       (deployProgram (okParams [1, 2, 3]) (failAtLedger 0 "boom") idleStatus).1.status =
         "error" ∧
       ("Error: " ++ e) ∈
         (deployProgram (okParams [1, 2, 3]) (failAtLedger 0 "boom") idleStatus).1.logs)) :=
  ⟨by decide, c9_propagation (okParams [1, 2, 3]) (failAtLedger 0 "boom") idleStatus
    (by decide)⟩

/-- Counterexample for C9 as stated: with the program data missing, the run
returns after only a toast — the status is left at idle, not moved to the
error state, and no error log entry is recorded. -/
theorem c9_counterexample :
    deployProgram
      { apiKey := some "api-key", apiSecretPath := some "secret.pem",
        vaultAccountId := some "0", programPath := "program.so", programData := none,
        keypairCtorFails := false, freshKeypairPk := "FreshKey" } okLedger idleStatus =
      (idleStatus, []) ∧
    idleStatus.status = "idle" ∧
    idleStatus.logs = [] := by
  refine ⟨?_, rfl, rfl⟩
  exact deployProgram_of_missing _ okLedger idleStatus (by decide)

/-- Claim C10: when the wallet-derived keypair construction does not throw,
the program identity is the fee payer's public key, and a successful run
reports exactly that key as the deployed program id. -/
theorem c10_program_id (p : DeployParams) (ledger : Ledger) (s0 : DeploymentStatus)
    (payer : String)
    (hctor : p.keypairCtorFails = false) (hconn : ledger.conn = Except.ok payer)
    (hv : missingRequiredFields p = false) :
    identityOf p payer = payer ∧
    ((deployProgram p ledger s0).1.status = "success" →
      (deployProgram p ledger s0).1.programId = some payer) := by
  have hid : identityOf p payer = payer := by simp [identityOf, hctor]
  refine ⟨hid, ?_⟩
  intro hs
  have hdata : ∃ blob, p.programData = some blob := by
    cases hd : p.programData with
    | none =>
      exfalso
      simp [missingRequiredFields, hd] at hv
    | some blob => exact ⟨blob, rfl⟩
  obtain ⟨blob, hdata⟩ := hdata
  cases hb : deployBody p ledger blob with
  | ok v =>
    have hpk := deployBody_ok_pk p ledger blob payer v.1 v.2 hconn (by simpa using hb)
    rw [deployProgram_of_body_ok p ledger s0 blob v.1 v.2 hv hdata (by simpa using hb)]
    simp [successStatus, hpk, hid]
  | error v =>
    rw [deployProgram_of_body_error p ledger s0 blob v.1 v.2 hv hdata (by simpa using hb)]
      at hs
    exact absurd hs (by simp [errorStatus])

/-- Witness for C10 at a concrete confirming run. -/
theorem c10_program_id_witness :
    (okParams [1, 2, 3]).keypairCtorFails = false ∧
    missingRequiredFields (okParams [1, 2, 3]) = false ∧
    (identityOf (okParams [1, 2, 3]) "Payer" = "Payer" ∧
     ((deployProgram (okParams [1, 2, 3]) okLedger idleStatus).1.status = "success" →
       (deployProgram (okParams [1, 2, 3]) okLedger idleStatus).1.programId =
         some "Payer")) :=
  ⟨by decide, by decide,
   c10_program_id (okParams [1, 2, 3]) okLedger idleStatus "Payer" (by decide) rfl
     (by decide)⟩
